import Mathlib

/-!
Verification of the Helix CLI project-generation engine (src/bin/helix.js,
with the variant CLI in src/unnamed/part_011) against its specification.

The engine is embedded shallowly:
 - `package.json` manifests are JSON objects, modelled as association lists of
   top-level fields over a small JSON value type `JVal`; JavaScript property
   read/write and truthiness are modelled explicitly (`getF`, `setF`,
   `jsTruthy`), since the source relies on truthiness checks such as
   `!existingPackage.dependencies[dep]` and `!packageObj.type`.
 - `mergeHelixPackageJson` and `convertToESM` are translated statement by
   statement from src/bin/helix.js lines 68-76 and 169-260 (identical in
   src/unnamed/part_011 lines 32-40 and 133-224).
 - `processTemplateFile`s content transformation (helix.js lines 32-63) is
   embedded over `List Char`, including the JavaScript `String.replace`
   replacement-pattern expansion (`$$`, `$&`, the backquote and quote forms)
   that applies because the replacement value is passed unescaped.
 - the template tree walker `copyRecursive` (helix.js lines 94-129) runs over a
   model filesystem tree and emits instructions.
 - the `start` and `create` command handlers are embedded as functions from the
   observable environment to a trace of effects.
-/

/-- JSON value, as produced by JSON.parse: null, boolean, number, string,
array, or object (an association list of fields in insertion order). -/
inductive JVal where
  | null
  | bool (b : Bool)
  | num (n : Int)
  | str (s : String)
  | arr (items : List JVal)
  | obj (fields : List (String × JVal))

/-- A parsed package.json: the top-level fields of the JSON object, in
insertion order. -/
abbrev Manifest := List (String × JVal)

/-- JavaScript truthiness of a JSON value: null, false, 0 and the empty
string are falsy; every array and object (including empty ones) is truthy. -/
def jsTruthy : JVal → Bool
  | JVal.null => false
  | JVal.bool b => b
  | JVal.num n => n != 0
  | JVal.str s => s ≠ ""
  | JVal.arr _ => true
  | JVal.obj _ => true

/-- Truthiness of a property read: an absent property (undefined) is falsy. -/
def truthyOpt : Option JVal → Bool
  | none => false
  | some v => jsTruthy v

/-- Property read on an object: first field with the given key. -/
def getF : List (String × JVal) → String → Option JVal
  | [], _ => none
  | kv :: rest, k => if kv.1 = k then some kv.2 else getF rest k

/-- Property write on an object: an existing key is updated in place
(preserving field order), a new key is appended, as in JavaScript. -/
def setF (o : List (String × JVal)) (k : String) (v : JVal) : List (String × JVal) :=
  if (getF o k).isSome then
    o.map (fun kv => if kv.1 = k then (k, v) else kv)
  else
    o ++ [(k, v)]

/-- Object.entries: fields of an object; index/character pairs for a string;
index/element pairs for an array; empty for the remaining primitives. The
null case is unreachable in the merge code because every use is guarded. -/
def jsEntries : JVal → List (String × JVal)
  | JVal.obj fs => fs
  | JVal.str s => s.data.enum.map (fun ic => (toString ic.1, JVal.str (String.singleton ic.2)))
  | JVal.arr xs => xs.enum.map (fun iv => (toString iv.1, iv.2))
  | _ => []

/-- The expression `x || d` on a property read: the default replaces an
absent or falsy value. -/
def jsOr (o : Option JVal) (d : JVal) : JVal :=
  match o with
  | some v => if jsTruthy v then v else d
  | none => d

/-- Whether a field holds exactly the given string. -/
def fieldIsStr (p : Manifest) (k s : String) : Bool :=
  match getF p k with
  | some (JVal.str t) => t = s
  | _ => false

/-- convertToESM (helix.js lines 68-76): if the type field is falsy
(absent, empty, ...) or equals the string commonjs, set it to module;
otherwise return the object unchanged. -/
def convertToESM (p : Manifest) : Manifest :=
  if !truthyOpt (getF p "type") || fieldIsStr p "type" "commonjs" then
    setF p "type" (JVal.str "module")
  else p

/-- The statement `if (!pkg.k) pkg.k = dflt`. -/
def ensureField (p : Manifest) (k : String) (dflt : JVal) : Manifest :=
  if truthyOpt (getF p k) then p else setF p k dflt

/-- The field value used by the merge loops after an ensureField: the stored
value, or an empty object when (unreachably) absent. -/
def fieldEntries (p : Manifest) (k : String) : List (String × JVal) :=
  jsEntries (match getF p k with | some v => v | none => JVal.obj [])

/-- Entries of a template field, read as `Object.entries(tmpl.k || {})`. -/
def tmplEntries (tmpl : Manifest) (k : String) : List (String × JVal) :=
  jsEntries (jsOr (getF tmpl k) (JVal.obj []))

/-- The additive dependency loop (helix.js lines 196-204 and 209-217): for
each template entry, assign it only when the destination entry is falsy
(absent or, by JavaScript truthiness, an empty string). -/
def mergeEntries (dest tmpl : List (String × JVal)) : List (String × JVal) :=
  tmpl.foldl (fun acc kv => if truthyOpt (getF acc kv.1) then acc else setF acc kv.1 kv.2) dest

/-- The script loop (helix.js lines 225-230): every template entry is
assigned unconditionally. -/
def overrideEntries (dest tmpl : List (String × JVal)) : List (String × JVal) :=
  tmpl.foldl (fun acc kv => setF acc kv.1 kv.2) dest

/-- Fixed description written by the merge (helix.js lines 234-235). -/
def helixDescription : String :=
  "Full-stack FBCA application with UIKit frontend and AppKit backend"

/-- The keyword list of a manifest (empty when absent or not an array;
the merge only reads it after ensuring it is present). -/
def keywordsOf (p : Manifest) : List JVal :=
  match getF p "keywords" with
  | some (JVal.arr xs) => xs
  | _ => []

/-- The keywords block (helix.js lines 238-241): ensure the list exists,
then push the helix tag when no element equals it. -/
def keywordsStep (p : Manifest) : Manifest :=
  if (keywordsOf (ensureField p "keywords" (JVal.arr []))).any
      (fun v => match v with | JVal.str s => s = "helix" | _ => false) then
    ensureField p "keywords" (JVal.arr [])
  else
    setF (ensureField p "keywords" (JVal.arr [])) "keywords"
      (JVal.arr (keywordsOf (ensureField p "keywords" (JVal.arr [])) ++ [JVal.str "helix"]))

/-- Lines 180-192 of helix.js: convertToESM, then the two ensure
statements for the dependency containers. -/
def mergedBase (dest : Manifest) : Manifest :=
  ensureField (ensureField (convertToESM dest) "dependencies" (JVal.obj []))
    "devDependencies" (JVal.obj [])

/-- Lines 196-204 of helix.js: run the additive loop over the template
runtime dependencies and store the mutated container back. -/
def depsStep (tmpl p : Manifest) : Manifest :=
  setF p "dependencies"
    (JVal.obj (mergeEntries (fieldEntries p "dependencies") (tmplEntries tmpl "dependencies")))

/-- Lines 209-217 of helix.js: the additive loop over the template
development dependencies. -/
def devDepsStep (tmpl p : Manifest) : Manifest :=
  setF p "devDependencies"
    (JVal.obj (mergeEntries (fieldEntries p "devDependencies") (tmplEntries tmpl "devDependencies")))

/-- Lines 221-230 of helix.js: ensure the script container, then the
unconditional loop over the template scripts. -/
def scriptsStep (tmpl p : Manifest) : Manifest :=
  setF (ensureField p "scripts" (JVal.obj [])) "scripts"
    (JVal.obj (overrideEntries (fieldEntries (ensureField p "scripts" (JVal.obj [])) "scripts")
      (tmplEntries tmpl "scripts")))

/-- mergeHelixPackageJson (helix.js lines 169-260), as a pure function from
the destination manifest and the template manifest to the object written
back to package.json, composed in exact statement order: convertToESM and
the container ensures, the two additive dependency loops, the script
loop, the description overwrite, the keywords block. -/
def mergeHelixPackageJson (dest tmpl : Manifest) : Manifest :=
  keywordsStep
    (setF (scriptsStep tmpl (devDepsStep tmpl (depsStep tmpl (mergedBase dest))))
      "description" (JVal.str helixDescription))

/-- The version recorded for a dependency key in a manifest (none when the
dependency map is absent, not an object, or lacks the key). -/
def depVersion (m : Manifest) (k : String) : Option JVal :=
  match getF m "dependencies" with
  | some (JVal.obj fs) => getF fs k
  | _ => none

/-- The version recorded for a development-dependency key in a manifest. -/
def devDepVersion (m : Manifest) (k : String) : Option JVal :=
  match getF m "devDependencies" with
  | some (JVal.obj fs) => getF fs k
  | _ => none

/-- The command recorded for a script key in a manifest. -/
def scriptCommand (m : Manifest) (k : String) : Option JVal :=
  match getF m "scripts" with
  | some (JVal.obj fs) => getF fs k
  | _ => none

/-- Well-formedness under which the JavaScript merge runs without a
TypeError: the dependency, devDependency and script fields, when present
and truthy, are objects, and the keywords field, when present and truthy,
is an array (the source mutates these containers in place). -/
def objLikeField (m : Manifest) (k : String) : Bool :=
  match getF m k with
  | some (JVal.obj _) => true
  | some v => !jsTruthy v
  | none => true

/-- Keywords-side counterpart of objLikeField. -/
def arrLikeField (m : Manifest) (k : String) : Bool :=
  match getF m k with
  | some (JVal.arr _) => true
  | some v => !jsTruthy v
  | none => true

/-- A destination manifest the merge can process without a TypeError. -/
def manifestWF (m : Manifest) : Bool :=
  objLikeField m "dependencies" && objLikeField m "devDependencies" &&
    objLikeField m "scripts" && arrLikeField m "keywords"

/-- The dollar character, which begins a replacement pattern in the second
argument of the JavaScript String.replace. -/
def dollarChar : Char := '$'

/-- The ampersand character: after a dollar it denotes the matched text. -/
def ampChar : Char := '&'

/-- The backquote character (by code point, to keep it out of the source
text): after a dollar it denotes the text before the match. -/
def backquoteChar : Char := Char.ofNat 96

/-- The single-quote character (by code point): after a dollar it denotes
the text after the match. -/
def quoteChar : Char := Char.ofNat 39

/-- GetSubstitution of the JavaScript String.replace for a regular
expression without capture groups: expand the replacement string, where a
doubled dollar is a literal dollar, dollar-ampersand is the matched text,
dollar-backquote is the text before the match, dollar-quote is the text
after the match, and every other dollar (including dollar-digit, since
there are no groups) is literal. -/
def expandSub (matched pre post : List Char) : List Char → List Char
  | [] => []
  | [c] => [c]
  | c :: d :: rest2 =>
    if c = dollarChar then
      if d = dollarChar then dollarChar :: expandSub matched pre post rest2
      else if d = ampChar then matched ++ expandSub matched pre post rest2
      else if d = backquoteChar then pre ++ expandSub matched pre post rest2
      else if d = quoteChar then post ++ expandSub matched pre post rest2
      else c :: expandSub matched pre post (d :: rest2)
    else c :: expandSub matched pre post (d :: rest2)

/-- Scan of a global regex replace over the remaining text: at each
position, if the token matches, emit the expanded replacement and continue
after the match; otherwise keep the character. The first argument is fuel;
with fuel at least the length of the text and a non-empty token the zero
case is never reached, since every step consumes at least one character. -/
def jsRepGo (tok rep : List Char) : Nat → List Char → List Char → List Char
  | 0, _, s => s
  | _ + 1, _, [] => []
  | f + 1, pre, c :: rest =>
    if tok.isPrefixOf (c :: rest) then
      expandSub tok pre (List.drop tok.length (c :: rest)) rep ++
        jsRepGo tok rep f (pre ++ tok) (List.drop tok.length (c :: rest))
    else c :: jsRepGo tok rep f (pre ++ [c]) rest

/-- content.replace(new RegExp(escapedToken, g-flag), rep): global,
left-to-right, non-overlapping replacement of the literal token, with
replacement-pattern expansion of rep. The escaping in helix.js line 49
escapes exactly the braces, and the tokens consist of braces, letters and
underscores, so the constructed regex matches the literal token. Tokens
are never empty, so the empty-token branch is unreachable. -/
def jsReplaceAll (tok rep s : List Char) : List Char :=
  if tok.isEmpty then s else jsRepGo tok rep s.length [] s

/-- Count of left-to-right non-overlapping occurrences of a token
(fuelled scan, same shape as jsRepGo). -/
def countOccsGo (tok : List Char) : Nat → List Char → Nat
  | 0, _ => 0
  | _ + 1, [] => 0
  | f + 1, c :: rest =>
    if tok.isPrefixOf (c :: rest) then countOccsGo tok f (List.drop tok.length (c :: rest)) + 1
    else countOccsGo tok f rest

/-- Number of occurrences of a non-empty token in a text. -/
def countOccs (tok s : List Char) : Nat :=
  if tok.isEmpty then 0 else countOccsGo tok s.length s

/-- Modelled from the wording of the specification, for comparison with the
source function: literal global string substitution, every occurrence of
the token replaced by the replacement value exactly as written, with no
replacement-pattern interpretation. -/
def specLiteralGo (tok rep : List Char) : Nat → List Char → List Char
  | 0, s => s
  | _ + 1, [] => []
  | f + 1, c :: rest =>
    if tok.isPrefixOf (c :: rest) then
      rep ++ specLiteralGo tok rep f (List.drop tok.length (c :: rest))
    else c :: specLiteralGo tok rep f rest

/-- Literal global replacement of a non-empty token, from the
specification wording. -/
def specLiteralReplace (tok rep s : List Char) : List Char :=
  if tok.isEmpty then s else specLiteralGo tok rep s.length s

/-- The effective project name (helix.js line 37): for the current-directory
sentinel, the last segment of the working directory split on slashes. -/
def actualProjectName (projectName cwd : String) : String :=
  if projectName = "." then ((cwd.splitOn "/").getLast?).getD "" else projectName

/-- The resolved token map of helix.js lines 40-45, in object-literal
insertion order. -/
def replacements (apn : String) : List (String × String) :=
  [("\x7b\x7bPROJECT_NAME\x7d\x7d", apn),
   ("\x7b\x7bprojectName\x7d\x7d", apn),
   ("\x7b\x7bDEFAULT_THEME\x7d\x7d", "base"),
   ("\x7b\x7bDEFAULT_MODE\x7d\x7d", "light")]

/-- The content transformation of processTemplateFile (helix.js lines
32-56): one global replace per token, in token-map order; the read and
write of the file are elided. -/
def processTemplateFile (projectName cwd : String) (content : List Char) : List Char :=
  (replacements (actualProjectName projectName cwd)).foldl
    (fun acc tr => jsReplaceAll tr.1.data tr.2.data acc) content

/-- A node of the template source tree: a regular file or a directory with
its children in directory-listing order (the two cases the walker
distinguishes via statSync). -/
inductive FSEntry where
  | file (name : String)
  | dir (name : String) (children : List FSEntry)

/-- An instruction the template tree walker emits for a visited entry:
create a destination directory, copy a plain file, or process a
placeholder file (paths as segment lists relative to the destination
root; for placeholder files the marker suffix is stripped). -/
inductive Instr where
  | createDir (dest : List String)
  | copyFile (dest : List String)
  | processPlaceholder (dest : List String)
deriving DecidableEq

/-- endsWith as used by the walker. -/
def sEndsWith (s suffix : String) : Bool :=
  suffix.data.isSuffixOf s.data

/-- item.replace applied to a string pattern: replace the first occurrence
only (the walker uses it to strip the .template marker). -/
def replaceFirstList (tok rep : List Char) : List Char → List Char
  | [] => []
  | c :: rest =>
    if tok.isPrefixOf (c :: rest) then rep ++ List.drop tok.length (c :: rest)
    else c :: replaceFirstList tok rep rest

/-- The destination name of a .template file: first occurrence of
.template removed, as in item.replace applied at helix.js line 117. -/
def stripTemplateSuffix (name : String) : String :=
  String.mk (replaceFirstList ".template".data [] name.data)

/-- copyRecursive (helix.js lines 94-129) over a model source tree, with
the destination state abstracted as an existence predicate on destination
paths: for a directory, create it unless it exists and recurse into it;
for a file named package.json, RETURN from the call, which abandons the
remaining items of the current directory; for a .template file, emit a
process-placeholder instruction under the stripped name; otherwise emit a
copy instruction. Siblings are processed in listing order, a directory
before its contents. -/
def copyRecursive (destEx : List String → Bool) : List FSEntry → List String → List Instr
  | [], _ => []
  | FSEntry.dir n cs :: rest, destPath =>
    (if destEx (destPath ++ [n]) then [] else [Instr.createDir (destPath ++ [n])]) ++
      copyRecursive destEx cs (destPath ++ [n]) ++ copyRecursive destEx rest destPath
  | FSEntry.file n :: rest, destPath =>
    if n = "package.json" then []
    else if sEndsWith n ".template" then
      Instr.processPlaceholder (destPath ++ [stripTemplateSuffix n]) ::
        copyRecursive destEx rest destPath
    else Instr.copyFile (destPath ++ [n]) :: copyRecursive destEx rest destPath

/-- An observable effect of a command handler: stdout line, stderr line,
process exit, child-process invocation, directory creation, working
directory change, or a filesystem write. -/
inductive Eff where
  | logOut (msg : String)
  | logErr (msg : String)
  | exitP (code : Nat)
  | execCmd (cmd : String)
  | mkDir (path : String)
  | chDir (path : String)
  | writeFS (path : String)
deriving DecidableEq

/-- path.join restricted to the shapes the start handler uses: concatenate
with a slash and drop a leading dot-slash, as node normalizes it. -/
def pathJoin (a b : String) : String :=
  let raw := a.data ++ '/' :: b.data
  String.mk (if ['.', '/'].isPrefixOf raw then raw.drop 2 else raw)

/-- The build directory checked by the start handler (helix.js line 401). -/
def distDir : String := "./dist"

/-- The compiled backend entrypoint (helix.js line 402). -/
def apiServerPath : String := pathJoin distDir "api/server.js"

/-- The compiled frontend index (helix.js line 403). -/
def webIndexPath : String := pathJoin distDir "index.html"

/-- The start command handler (helix.js lines 398-430) as a trace of
effects, parameterized by the filesystem existence predicate and by
whether the delegated start script succeeds: three existence guards, each
failing with an error naming the missing artifact, a hint naming the
rebuild command, and exit code 1; only when all three artifacts exist is
the production start script invoked. -/
def startCommand (ex : String → Bool) (startOk : Bool) : List Eff :=
  Eff.logOut "🔍 Checking build files..." ::
  (if !(ex distDir) then
    [Eff.logErr "❌ Build not found! Please run \"npm run build\" first.",
     Eff.logOut "💡 Run: npm run build", Eff.exitP 1]
  else if !(ex apiServerPath) then
    [Eff.logErr "❌ API build not found! Backend server missing.",
     Eff.logOut "💡 Run: npm run build:api", Eff.exitP 1]
  else if !(ex webIndexPath) then
    [Eff.logErr "❌ Web build not found! Frontend build missing.",
     Eff.logOut "💡 Run: npm run build:web", Eff.exitP 1]
  else
    Eff.logOut "✅ Build files found. Starting production server..." ::
    Eff.execCmd "npm run start:api" ::
    (if startOk then [] else [Eff.logErr "❌ Error starting server:", Eff.exitP 1]))

/-- The fixed template identifier set (helix.js line 295). -/
def validTemplates : List String := ["basicapp", "welcomeapp", "userapp", "todoapp"]

/-- The validation prelude of the create command (helix.js lines 286-333)
as a trace of effects, parameterized by the observable environment:
project-name argument (none when argv lacks it), template identifier,
whether the packaged template directory exists, whether the destination
exists, and whether the current directory has a package.json. Mirrors the
source order: missing or empty name, invalid template, unavailable
template, then the current-directory and new-directory branches. -/
def createPrelude (projectName : Option String) (templateType : String)
    (templateDirExists destExists pkgExists : Bool) : List Eff :=
  match projectName with
  | none =>
    [Eff.logErr "❌ Please provide a project name or \".\" for current directory: helix create <project-name>",
     Eff.exitP 1]
  | some pn =>
    if pn = "" then
      [Eff.logErr "❌ Please provide a project name or \".\" for current directory: helix create <project-name>",
       Eff.exitP 1]
    else if !(validTemplates.contains templateType) then
      [Eff.logErr ("❌ Invalid template \"" ++ templateType ++ "\". Available templates: " ++
        String.intercalate ", " validTemplates), Eff.exitP 1]
    else if !templateDirExists then
      [Eff.logErr ("❌ Template \"" ++ templateType ++ "\" is not yet available. Currently available: basicapp"),
       Eff.exitP 1]
    else if pn = "." then
      Eff.logOut ("🚀 Installing Helix " ++ templateType ++ " in current directory") ::
        (if pkgExists then
          [Eff.logOut "📦 Found existing package.json - will merge with Helix configuration"]
        else [])
    else
      Eff.logOut ("🚀 Creating Helix " ++ templateType ++ " project: " ++ pn) ::
        (if destExists then
          [Eff.logErr ("❌ Directory " ++ pn ++ " already exists"), Eff.exitP 1]
        else [Eff.mkDir pn, Eff.chDir pn])

/-- A step of the create command body, at the granularity the orchestration
claims are about. -/
inductive CreateStep where
  | uikitGenerate
  | appkitGenerate
  | mergePackageJson
  | npmInstall
  | copyTemplateOverlay
  | addViteUrl
  | cleanupUtils
deriving DecidableEq

/-- The step sequence of the create body in src/bin/helix.js (lines
335-359): template overlay, then npm install, then the basicapp cleanup.
This file invokes no external generators and never calls the manifest
merge. -/
def createStepsHelixBin (templateType : String) : List CreateStep :=
  [CreateStep.copyTemplateOverlay, CreateStep.npmInstall] ++
    (if templateType = "basicapp" then [CreateStep.cleanupUtils] else [])

/-- The step sequence of the create body in src/unnamed/part_011 (lines
297-342): UIKit generator, AppKit generator, manifest merge, npm install,
template overlay, VITE_API_URL injection, basicapp cleanup. -/
def createStepsPart011 (templateType : String) : List CreateStep :=
  [CreateStep.uikitGenerate, CreateStep.appkitGenerate, CreateStep.mergePackageJson,
   CreateStep.npmInstall, CreateStep.copyTemplateOverlay, CreateStep.addViteUrl] ++
    (if templateType = "basicapp" then [CreateStep.cleanupUtils] else [])

/-- Destination manifest of the concrete merge scenario in the
specification: react pinned at 18.0.0 and a dev script to be superseded. -/
def scenDest : Manifest :=
  [("dependencies", JVal.obj [("react", JVal.str "18.0.0")]),
   ("scripts", JVal.obj [("dev", JVal.str "old")])]

/-- Template manifest of the concrete merge scenario in the
specification. -/
def scenTmpl : Manifest :=
  [("dependencies", JVal.obj [("react", JVal.str "17.0.0"), ("express", JVal.str "4.0.0")]),
   ("scripts", JVal.obj [("dev", JVal.str "new"), ("build", JVal.str "tsc")])]

/-- Destination manifest whose dependency entry holds the empty string, a
falsy value in JavaScript. -/
def depOverwriteDest : Manifest := [("dependencies", JVal.obj [("a", JVal.str "")])]

/-- Template manifest offering a version for the same key. -/
def depOverwriteTmpl : Manifest := [("dependencies", JVal.obj [("a", JVal.str "1.0.0")])]

/-- Destination manifest with a present, truthy, non-commonjs (empty
aside) type field and identity fields. -/
def frameDest : Manifest :=
  [("name", JVal.str "demo"), ("version", JVal.str "1.2.3"),
   ("type", JVal.str "module"), ("dependencies", JVal.obj []), ("keywords", JVal.arr [])]

/-- Destination manifest whose type field is the empty string. -/
def emptyTypeManifest : Manifest := [("type", JVal.str "")]

/-- A destination filesystem with no pre-existing directories. -/
def noDestEx : List String → Bool := fun _ => false

/-- A filesystem on which no path exists. -/
def noFS : String → Bool := fun _ => false

/-- In-place update of a present key is read back. -/
theorem getF_mapSet_self (o : List (String × JVal)) (k : String) (v : JVal)
    (h : (getF o k).isSome = true) :
    getF (o.map (fun kv => if kv.1 = k then (k, v) else kv)) k = some v := by
  induction o with
  | nil => simp [getF] at h
  | cons kv rest ih =>
    by_cases hk : kv.1 = k
    · simp [getF, hk]
    · simp only [getF, hk, if_false] at h
      simpa [getF, hk] using ih h

/-- Appending a fresh key is read back. -/
theorem getF_append_self (o : List (String × JVal)) (k : String) (v : JVal)
    (h : getF o k = none) :
    getF (o ++ [(k, v)]) k = some v := by
  induction o with
  | nil => simp [getF]
  | cons kv rest ih =>
    by_cases hk : kv.1 = k
    · simp [getF, hk] at h
    · simp only [getF, hk, if_false] at h
      simpa [getF, hk] using ih h

/-- Reading the key just written returns the written value. -/
theorem getF_setF_self (o : List (String × JVal)) (k : String) (v : JVal) :
    getF (setF o k v) k = some v := by
  unfold setF
  split
  · exact getF_mapSet_self o k v (by assumption)
  · rename_i h
    exact getF_append_self o k v (Option.not_isSome_iff_eq_none.mp h)

/-- In-place update of one key does not change the read at another. -/
theorem getF_mapSet_ne (o : List (String × JVal)) (k' k : String) (v : JVal) (h : k' ≠ k) :
    getF (o.map (fun kv => if kv.1 = k' then (k', v) else kv)) k = getF o k := by
  induction o with
  | nil => simp [getF]
  | cons kv rest ih =>
    by_cases hk : kv.1 = k'
    · have hkk : ¬kv.1 = k := by rw [hk]; exact h
      simpa [getF, hk, h, hkk] using ih
    · by_cases hkk : kv.1 = k
      · simp [getF, hk, hkk, Ne.symm h]
      · simpa [getF, hk, hkk] using ih

/-- Appending one key does not change the read at another. -/
theorem getF_append_ne (o : List (String × JVal)) (k' k : String) (v : JVal) (h : k' ≠ k) :
    getF (o ++ [(k', v)]) k = getF o k := by
  induction o with
  | nil => simp [getF, h]
  | cons kv rest ih =>
    by_cases hkk : kv.1 = k
    · simp [getF, hkk]
    · simpa [getF, hkk] using ih

/-- Writing one key does not change the value read at another. -/
theorem getF_setF_ne (o : List (String × JVal)) (k' k : String) (v : JVal) (h : k' ≠ k) :
    getF (setF o k' v) k = getF o k := by
  unfold setF
  split
  · exact getF_mapSet_ne o k' k v h
  · exact getF_append_ne o k' k v h

/-- One step of the additive loop. -/
theorem mergeEntries_cons (dest : List (String × JVal)) (kv : String × JVal)
    (rest : List (String × JVal)) :
    mergeEntries dest (kv :: rest) =
      mergeEntries (if truthyOpt (getF dest kv.1) then dest else setF dest kv.1 kv.2) rest := rfl

/-- A truthy destination entry survives the additive loop unchanged: the
loop only assigns keys whose current value is falsy. -/
theorem getF_mergeEntries_truthy (ts : List (String × JVal)) (dest : List (String × JVal))
    (k : String) (w : JVal) (hw : getF dest k = some w) (ht : jsTruthy w = true) :
    getF (mergeEntries dest ts) k = some w := by
  induction ts generalizing dest with
  | nil => simpa [mergeEntries] using hw
  | cons kv rest ih =>
    rw [mergeEntries_cons]
    by_cases hk : kv.1 = k
    · have hcond : truthyOpt (getF dest kv.1) = true := by
        rw [hk, hw]; simpa [truthyOpt] using ht
      simp only [hcond, if_true]
      exact ih dest hw
    · by_cases hb : truthyOpt (getF dest kv.1) = true
      · simp only [hb, if_true]
        exact ih dest hw
      · rw [if_neg hb]
        exact ih _ (by rw [getF_setF_ne dest kv.1 k kv.2 hk]; exact hw)

/-- A key absent from the template side is untouched by the additive loop. -/
theorem getF_mergeEntries_notMem (ts : List (String × JVal)) (dest : List (String × JVal))
    (k : String) (h : k ∉ ts.map Prod.fst) :
    getF (mergeEntries dest ts) k = getF dest k := by
  induction ts generalizing dest with
  | nil => rfl
  | cons kv rest ih =>
    have hk : kv.1 ≠ k := by
      intro e; exact h (by simp [e])
    have hrest : k ∉ rest.map Prod.fst := by
      intro e; exact h (by simp [e])
    rw [mergeEntries_cons]
    by_cases hb : truthyOpt (getF dest kv.1) = true
    · rw [if_pos hb]
      exact ih dest hrest
    · rw [if_neg hb]
      rw [ih _ hrest]
      exact getF_setF_ne dest kv.1 k kv.2 hk

/-- A key absent (as a property read) from the destination is inserted by
the additive loop with the template value, assuming the template keys are
distinct (JSON.parse yields objects with distinct keys). -/
theorem getF_mergeEntries_insert (ts : List (String × JVal)) (dest : List (String × JVal))
    (k : String) (v : JVal) (hnd : (ts.map Prod.fst).Nodup)
    (h0 : getF dest k = none) (hv : getF ts k = some v) :
    getF (mergeEntries dest ts) k = some v := by
  induction ts generalizing dest with
  | nil => simp [getF] at hv
  | cons kv rest ih =>
    rw [mergeEntries_cons]
    by_cases hk : kv.1 = k
    · have hvv : kv.2 = v := by
        have := hv
        simp only [getF, hk, if_pos rfl] at this
        exact Option.some.inj this
      have hcond : ¬truthyOpt (getF dest kv.1) = true := by rw [hk, h0]; simp [truthyOpt]
      rw [if_neg hcond]
      have hnotin : k ∉ rest.map Prod.fst := by
        rw [← hk]
        exact (List.nodup_cons.mp (by simpa using hnd)).1
      rw [getF_mergeEntries_notMem rest _ k hnotin]
      rw [← hk, hvv]
      exact getF_setF_self dest kv.1 v
    · have hv' : getF rest k = some v := by simpa [getF, hk] using hv
      have hnd' : (rest.map Prod.fst).Nodup := (List.nodup_cons.mp (by simpa using hnd)).2
      by_cases hb : truthyOpt (getF dest kv.1) = true
      · rw [if_pos hb]
        exact ih dest hnd' h0 hv'
      · rw [if_neg hb]
        exact ih _ hnd' (by rw [getF_setF_ne dest kv.1 k kv.2 hk]; exact h0) hv'

/-- One step of the unconditional script loop. -/
theorem overrideEntries_cons (dest : List (String × JVal)) (kv : String × JVal)
    (rest : List (String × JVal)) :
    overrideEntries dest (kv :: rest) = overrideEntries (setF dest kv.1 kv.2) rest := rfl

/-- A key absent from the template side is untouched by the script loop. -/
theorem getF_overrideEntries_notMem (ts : List (String × JVal)) (dest : List (String × JVal))
    (k : String) (h : k ∉ ts.map Prod.fst) :
    getF (overrideEntries dest ts) k = getF dest k := by
  induction ts generalizing dest with
  | nil => rfl
  | cons kv rest ih =>
    have hk : kv.1 ≠ k := by
      intro e; exact h (by simp [e])
    have hrest : k ∉ rest.map Prod.fst := by
      intro e; exact h (by simp [e])
    rw [overrideEntries_cons, ih _ hrest]
    exact getF_setF_ne dest kv.1 k kv.2 hk

/-- Every template entry wins in the script loop, assuming distinct
template keys. -/
theorem getF_overrideEntries_get (ts : List (String × JVal)) (dest : List (String × JVal))
    (k : String) (v : JVal) (hnd : (ts.map Prod.fst).Nodup) (hv : getF ts k = some v) :
    getF (overrideEntries dest ts) k = some v := by
  induction ts generalizing dest with
  | nil => simp [getF] at hv
  | cons kv rest ih =>
    rw [overrideEntries_cons]
    by_cases hk : kv.1 = k
    · have hvv : kv.2 = v := by
        have := hv
        simp only [getF, hk, if_pos rfl] at this
        exact Option.some.inj this
      have hnotin : k ∉ rest.map Prod.fst := by
        rw [← hk]
        exact (List.nodup_cons.mp (by simpa using hnd)).1
      rw [getF_overrideEntries_notMem rest _ k hnotin, ← hk, hvv]
      exact getF_setF_self dest kv.1 v
    · have hv' : getF rest k = some v := by simpa [getF, hk] using hv
      have hnd' : (rest.map Prod.fst).Nodup := (List.nodup_cons.mp (by simpa using hnd)).2
      exact ih _ hnd' hv'

/-- The entries a destination-side container contributes to a merge loop:
the stored entries when the field is truthy, else the entries of the empty
object the code installs (ensureField). -/
def destEntries (p : Manifest) (k : String) : List (String × JVal) :=
  match getF p k with
  | some v => if jsTruthy v then jsEntries v else []
  | none => []

/-- convertToESM touches only the type field. -/
theorem getF_convertToESM_ne (p : Manifest) (k : String) (h : k ≠ "type") :
    getF (convertToESM p) k = getF p k := by
  unfold convertToESM
  split
  · exact getF_setF_ne p "type" k _ (Ne.symm h)
  · rfl

/-- ensureField touches only its field. -/
theorem getF_ensureField_ne (p : Manifest) (k' k : String) (d : JVal) (h : k' ≠ k) :
    getF (ensureField p k' d) k = getF p k := by
  unfold ensureField
  split
  · rfl
  · exact getF_setF_ne p k' k d h

/-- The keywords block touches only the keywords field. -/
theorem getF_keywordsStep_ne (p : Manifest) (k : String) (h : k ≠ "keywords") :
    getF (keywordsStep p) k = getF p k := by
  unfold keywordsStep
  split
  · exact getF_ensureField_ne p "keywords" k _ (Ne.symm h)
  · rw [getF_setF_ne _ "keywords" k _ (Ne.symm h)]
    exact getF_ensureField_ne p "keywords" k _ (Ne.symm h)

/-- destEntries only depends on the field read. -/
theorem destEntries_congr (p q : Manifest) (k : String) (h : getF p k = getF q k) :
    destEntries p k = destEntries q k := by
  unfold destEntries
  rw [h]

/-- fieldEntries only depends on the field read. -/
theorem fieldEntries_congr (p q : Manifest) (k : String) (h : getF p k = getF q k) :
    fieldEntries p k = fieldEntries q k := by
  unfold fieldEntries
  rw [h]

/-- After the ensureField of a container, the entries the loop iterates are
exactly destEntries of the original manifest. -/
theorem fieldEntries_ensureField (p : Manifest) (k : String) :
    fieldEntries (ensureField p k (JVal.obj [])) k = destEntries p k := by
  unfold ensureField
  by_cases hb : truthyOpt (getF p k) = true
  · rw [if_pos hb]
    unfold fieldEntries destEntries
    cases hv : getF p k with
    | none => rw [hv] at hb; simp [truthyOpt] at hb
    | some v =>
      rw [hv] at hb
      simp only [truthyOpt] at hb
      simp [hb]
  · rw [if_neg hb]
    unfold fieldEntries destEntries
    rw [getF_setF_self p k (JVal.obj [])]
    cases hv : getF p k with
    | none => simp [jsEntries]
    | some v =>
      rw [hv] at hb
      simp only [truthyOpt] at hb
      simp [hb, jsEntries]

/-- The dependency field of the merged manifest is the additive merge of
the destination entries with the template entries. -/
theorem getF_merge_dependencies (dest tmpl : Manifest) :
    getF (mergeHelixPackageJson dest tmpl) "dependencies" =
      some (JVal.obj (mergeEntries (destEntries dest "dependencies")
        (tmplEntries tmpl "dependencies"))) := by
  unfold mergeHelixPackageJson scriptsStep devDepsStep
  rw [getF_keywordsStep_ne _ _ (by decide)]
  rw [getF_setF_ne _ "description" "dependencies" _ (by decide)]
  rw [getF_setF_ne _ "scripts" "dependencies" _ (by decide)]
  rw [getF_ensureField_ne _ "scripts" "dependencies" _ (by decide)]
  rw [getF_setF_ne _ "devDependencies" "dependencies" _ (by decide)]
  unfold depsStep
  rw [getF_setF_self]
  unfold mergedBase
  rw [fieldEntries_congr _ _ "dependencies"
    (getF_ensureField_ne _ "devDependencies" "dependencies" _ (by decide))]
  rw [fieldEntries_ensureField]
  rw [destEntries_congr _ _ "dependencies" (getF_convertToESM_ne _ _ (by decide))]

/-- The development-dependency field of the merged manifest is the
additive merge of the destination entries with the template entries. -/
theorem getF_merge_devDependencies (dest tmpl : Manifest) :
    getF (mergeHelixPackageJson dest tmpl) "devDependencies" =
      some (JVal.obj (mergeEntries (destEntries dest "devDependencies")
        (tmplEntries tmpl "devDependencies"))) := by
  unfold mergeHelixPackageJson scriptsStep
  rw [getF_keywordsStep_ne _ _ (by decide)]
  rw [getF_setF_ne _ "description" "devDependencies" _ (by decide)]
  rw [getF_setF_ne _ "scripts" "devDependencies" _ (by decide)]
  rw [getF_ensureField_ne _ "scripts" "devDependencies" _ (by decide)]
  unfold devDepsStep
  rw [getF_setF_self]
  unfold depsStep
  rw [fieldEntries_congr _ _ "devDependencies"
    (getF_setF_ne _ "dependencies" "devDependencies" _ (by decide))]
  unfold mergedBase
  rw [fieldEntries_ensureField]
  rw [destEntries_congr _ _ "devDependencies"
    (getF_ensureField_ne _ "dependencies" "devDependencies" _ (by decide))]
  rw [destEntries_congr _ _ "devDependencies" (getF_convertToESM_ne _ _ (by decide))]

/-- The script field of the merged manifest is the destination entries
overridden by every template entry. -/
theorem getF_merge_scripts (dest tmpl : Manifest) :
    getF (mergeHelixPackageJson dest tmpl) "scripts" =
      some (JVal.obj (overrideEntries (destEntries dest "scripts")
        (tmplEntries tmpl "scripts"))) := by
  unfold mergeHelixPackageJson
  rw [getF_keywordsStep_ne _ _ (by decide)]
  rw [getF_setF_ne _ "description" "scripts" _ (by decide)]
  unfold scriptsStep
  rw [getF_setF_self]
  rw [fieldEntries_ensureField]
  unfold devDepsStep
  rw [destEntries_congr _ _ "scripts" (getF_setF_ne _ "devDependencies" "scripts" _ (by decide))]
  unfold depsStep
  rw [destEntries_congr _ _ "scripts" (getF_setF_ne _ "dependencies" "scripts" _ (by decide))]
  unfold mergedBase
  rw [destEntries_congr _ _ "scripts" (getF_ensureField_ne _ "devDependencies" "scripts" _ (by decide))]
  rw [destEntries_congr _ _ "scripts" (getF_ensureField_ne _ "dependencies" "scripts" _ (by decide))]
  rw [destEntries_congr _ _ "scripts" (getF_convertToESM_ne _ _ (by decide))]

/-- The type field of the merged manifest is exactly what convertToESM
leaves: no later step touches it. -/
theorem getF_merge_type (dest tmpl : Manifest) :
    getF (mergeHelixPackageJson dest tmpl) "type" = getF (convertToESM dest) "type" := by
  unfold mergeHelixPackageJson scriptsStep devDepsStep depsStep mergedBase
  rw [getF_keywordsStep_ne _ _ (by decide)]
  rw [getF_setF_ne _ "description" "type" _ (by decide)]
  rw [getF_setF_ne _ "scripts" "type" _ (by decide)]
  rw [getF_ensureField_ne _ "scripts" "type" _ (by decide)]
  rw [getF_setF_ne _ "devDependencies" "type" _ (by decide)]
  rw [getF_setF_ne _ "dependencies" "type" _ (by decide)]
  rw [getF_ensureField_ne _ "devDependencies" "type" _ (by decide)]
  rw [getF_ensureField_ne _ "dependencies" "type" _ (by decide)]

/-- Every top-level field other than the six the merge owns is read back
unchanged from the destination manifest. -/
theorem getF_merge_frame (dest tmpl : Manifest) (k : String)
    (h : k ∉ ["type", "dependencies", "devDependencies", "scripts", "description", "keywords"]) :
    getF (mergeHelixPackageJson dest tmpl) k = getF dest k := by
  have h1 : k ≠ "type" := fun e => h (by rw [e]; decide)
  have h2 : k ≠ "dependencies" := fun e => h (by rw [e]; decide)
  have h3 : k ≠ "devDependencies" := fun e => h (by rw [e]; decide)
  have h4 : k ≠ "scripts" := fun e => h (by rw [e]; decide)
  have h5 : k ≠ "description" := fun e => h (by rw [e]; decide)
  have h6 : k ≠ "keywords" := fun e => h (by rw [e]; decide)
  unfold mergeHelixPackageJson scriptsStep devDepsStep depsStep mergedBase
  rw [getF_keywordsStep_ne _ _ h6]
  rw [getF_setF_ne _ "description" k _ (Ne.symm h5)]
  rw [getF_setF_ne _ "scripts" k _ (Ne.symm h4)]
  rw [getF_ensureField_ne _ "scripts" k _ (Ne.symm h4)]
  rw [getF_setF_ne _ "devDependencies" k _ (Ne.symm h3)]
  rw [getF_setF_ne _ "dependencies" k _ (Ne.symm h2)]
  rw [getF_ensureField_ne _ "devDependencies" k _ (Ne.symm h3)]
  rw [getF_ensureField_ne _ "dependencies" k _ (Ne.symm h2)]
  exact getF_convertToESM_ne _ _ h1

/-- When the destination field is an object, its entries feed the loop. -/
theorem destEntries_obj (p : Manifest) (k : String) (ds : List (String × JVal))
    (h : getF p k = some (JVal.obj ds)) : destEntries p k = ds := by
  unfold destEntries
  rw [h]
  simp [jsTruthy, jsEntries]

/-- Under well-formedness of a container field, the loop input is either
the stored object entries or empty. -/
theorem destEntries_cases (p : Manifest) (k : String) (hwf : objLikeField p k = true) :
    (∃ ds, getF p k = some (JVal.obj ds) ∧ destEntries p k = ds) ∨ destEntries p k = [] := by
  unfold objLikeField at hwf
  unfold destEntries
  cases hv : getF p k with
  | none => right; rfl
  | some v =>
    cases v with
    | obj fs => left; exact ⟨fs, rfl, by simp [jsTruthy, jsEntries]⟩
    | null => right; simp [jsTruthy]
    | bool b =>
      rw [hv] at hwf
      right
      simp only [Bool.not_eq_true'] at hwf
      simp [hwf]
    | num n =>
      rw [hv] at hwf
      right
      simp only [Bool.not_eq_true'] at hwf
      simp [hwf]
    | str s =>
      rw [hv] at hwf
      right
      simp only [Bool.not_eq_true'] at hwf
      simp [hwf]
    | arr xs =>
      rw [hv] at hwf
      simp [jsTruthy] at hwf

/-- When a template field is an object, the loop iterates its entries. -/
theorem tmplEntries_obj (tmpl : Manifest) (k : String) (fs : List (String × JVal))
    (h : getF tmpl k = some (JVal.obj fs)) : tmplEntries tmpl k = fs := by
  unfold tmplEntries jsOr
  rw [h]
  simp [jsTruthy, jsEntries]

/-- The four pieces of manifest well-formedness. -/
theorem manifestWF_spec (m : Manifest) (h : manifestWF m = true) :
    objLikeField m "dependencies" = true ∧ objLikeField m "devDependencies" = true ∧
      objLikeField m "scripts" = true ∧ arrLikeField m "keywords" = true := by
  unfold manifestWF at h
  simp only [Bool.and_eq_true] at h
  exact ⟨h.1.1.1, h.1.1.2, h.1.2, h.2⟩

/-- C1 (corrected), counterexample: a dependency key present in both
manifests whose destination version is the empty string (falsy in
JavaScript) is overwritten with the template version, so the destination
version string is not left unchanged. -/
theorem dep_empty_version_overwritten :
    depVersion depOverwriteDest "a" = some (JVal.str "") ∧
    depVersion (mergeHelixPackageJson depOverwriteDest depOverwriteTmpl) "a" =
      some (JVal.str "1.0.0") ∧
    ("1.0.0" : String) ≠ "" :=
  ⟨rfl, rfl, by decide⟩

/-- C1 (amended): for every dependency (and development-dependency) key
present in both manifests whose destination version string is non-empty,
the merged manifest keeps the destination version; only an empty (falsy)
destination version string is overwritten by the template. -/
theorem dep_version_retained (dest tmpl : Manifest) (k v : String)
    (_hwf : manifestWF dest = true) (hv : v ≠ "") :
    (depVersion dest k = some (JVal.str v) →
      depVersion (mergeHelixPackageJson dest tmpl) k = some (JVal.str v)) ∧
    (devDepVersion dest k = some (JVal.str v) →
      devDepVersion (mergeHelixPackageJson dest tmpl) k = some (JVal.str v)) := by
  constructor
  · intro h
    unfold depVersion at h ⊢
    rw [getF_merge_dependencies]
    cases hd : getF dest "dependencies" with
    | none => rw [hd] at h; exact absurd h (by simp)
    | some w =>
      rw [hd] at h
      cases w with
      | obj ds =>
        rw [destEntries_obj dest "dependencies" ds hd]
        exact getF_mergeEntries_truthy _ ds k _ h (by simp [jsTruthy, hv])
      | null => exact absurd h (by simp)
      | bool b => exact absurd h (by simp)
      | num n => exact absurd h (by simp)
      | str s => exact absurd h (by simp)
      | arr xs => exact absurd h (by simp)
  · intro h
    unfold devDepVersion at h ⊢
    rw [getF_merge_devDependencies]
    cases hd : getF dest "devDependencies" with
    | none => rw [hd] at h; exact absurd h (by simp)
    | some w =>
      rw [hd] at h
      cases w with
      | obj ds =>
        rw [destEntries_obj dest "devDependencies" ds hd]
        exact getF_mergeEntries_truthy _ ds k _ h (by simp [jsTruthy, hv])
      | null => exact absurd h (by simp)
      | bool b => exact absurd h (by simp)
      | num n => exact absurd h (by simp)
      | str s => exact absurd h (by simp)
      | arr xs => exact absurd h (by simp)

/-- Witness for C1 at the scenario manifests: the react pin survives. -/
theorem dep_version_retained_witness :
    depVersion (mergeHelixPackageJson scenDest scenTmpl) "react" = some (JVal.str "18.0.0") :=
  (dep_version_retained scenDest scenTmpl "react" "18.0.0" (by decide) (by decide)).1 rfl

/-- C4 (confirmed): for every script key defined in the template
manifest's script map, the merged manifest's script map entry for that key
equals exactly the template's command string, regardless of any value
previously present in the destination manifest's script map. -/
theorem script_supersession (dest tmpl : Manifest) (ts : List (String × JVal))
    (k c : String) (_hwf : manifestWF dest = true)
    (hts : getF tmpl "scripts" = some (JVal.obj ts))
    (hnd : (ts.map Prod.fst).Nodup)
    (hk : getF ts k = some (JVal.str c)) :
    scriptCommand (mergeHelixPackageJson dest tmpl) k = some (JVal.str c) := by
  unfold scriptCommand
  rw [getF_merge_scripts, tmplEntries_obj tmpl "scripts" ts hts]
  exact getF_overrideEntries_get ts _ k _ hnd hk

/-- Witness for C4 at the scenario manifests: the dev script is replaced
by the template command even though the destination had one. -/
theorem script_supersession_witness :
    scriptCommand (mergeHelixPackageJson scenDest scenTmpl) "dev" = some (JVal.str "new") :=
  script_supersession scenDest scenTmpl
    [("dev", JVal.str "new"), ("build", JVal.str "tsc")] "dev" "new"
    (by decide) rfl (by decide) rfl

/-- C5 (confirmed): every dependency key present only in the template is
inserted with the template's version string, and the concrete scenario of
the specification merges to exactly the stated dependency and script
maps. -/
theorem missing_key_insertion :
    (∀ (dest tmpl : Manifest) (td : List (String × JVal)) (k v : String),
      manifestWF dest = true →
      getF tmpl "dependencies" = some (JVal.obj td) →
      (td.map Prod.fst).Nodup →
      depVersion dest k = none →
      getF td k = some (JVal.str v) →
      depVersion (mergeHelixPackageJson dest tmpl) k = some (JVal.str v)) ∧
    getF (mergeHelixPackageJson scenDest scenTmpl) "dependencies" =
      some (JVal.obj [("react", JVal.str "18.0.0"), ("express", JVal.str "4.0.0")]) ∧
    getF (mergeHelixPackageJson scenDest scenTmpl) "scripts" =
      some (JVal.obj [("dev", JVal.str "new"), ("build", JVal.str "tsc")]) := by
  refine ⟨?_, rfl, rfl⟩
  intro dest tmpl td k v hwf htd hnd h0 hv
  unfold depVersion at h0 ⊢
  rw [getF_merge_dependencies, tmplEntries_obj tmpl "dependencies" td htd]
  have hobj : objLikeField dest "dependencies" = true := (manifestWF_spec dest hwf).1
  rcases destEntries_cases dest "dependencies" hobj with ⟨ds, hds, hde⟩ | hde
  · rw [hde]
    rw [hds] at h0
    exact getF_mergeEntries_insert td ds k _ hnd h0 hv
  · rw [hde]
    exact getF_mergeEntries_insert td [] k _ hnd rfl hv

/-- Witness for C5: express, present only in the template, is inserted at
the template version. -/
theorem missing_key_insertion_witness :
    depVersion (mergeHelixPackageJson scenDest scenTmpl) "express" = some (JVal.str "4.0.0") :=
  missing_key_insertion.1 scenDest scenTmpl
    [("react", JVal.str "17.0.0"), ("express", JVal.str "4.0.0")] "express" "4.0.0"
    (by decide) rfl (by decide) rfl rfl

/-- C6 (corrected), counterexample: a manifest whose type field is present
and is not commonjs (here the empty string) is not left untouched: the
merge rewrites it to module, because the source tests the field with
JavaScript truthiness rather than absence. -/
theorem empty_type_rewritten :
    getF emptyTypeManifest "type" = some (JVal.str "") ∧
    ("" : String) ≠ "commonjs" ∧
    getF (convertToESM emptyTypeManifest) "type" = some (JVal.str "module") ∧
    getF (mergeHelixPackageJson emptyTypeManifest []) "type" = some (JVal.str "module") :=
  ⟨rfl, by decide, rfl, rfl⟩

/-- C6 (amended): after the merge, a destination type field that was
absent, the empty string, or commonjs is module; a type field holding any
other string is left untouched. -/
theorem module_type_normalization (dest tmpl : Manifest) (_hwf : manifestWF dest = true) :
    ((getF dest "type" = none ∨ getF dest "type" = some (JVal.str "") ∨
        getF dest "type" = some (JVal.str "commonjs")) →
      getF (mergeHelixPackageJson dest tmpl) "type" = some (JVal.str "module")) ∧
    (∀ t : String, getF dest "type" = some (JVal.str t) → t ≠ "" → t ≠ "commonjs" →
      getF (mergeHelixPackageJson dest tmpl) "type" = some (JVal.str t)) := by
  constructor
  · intro h
    rw [getF_merge_type]
    unfold convertToESM
    have hcond : (!truthyOpt (getF dest "type") || fieldIsStr dest "type" "commonjs") = true := by
      rcases h with h | h | h <;> simp [h, truthyOpt, jsTruthy, fieldIsStr]
    rw [if_pos hcond]
    exact getF_setF_self dest "type" (JVal.str "module")
  · intro t ht h1 h2
    rw [getF_merge_type]
    unfold convertToESM
    rw [if_neg (by simp [ht, truthyOpt, jsTruthy, fieldIsStr, h1, h2])]
    exact ht

/-- Witness for C6: a module-typed destination keeps its type through the
merge. -/
theorem module_type_normalization_witness :
    getF (mergeHelixPackageJson frameDest scenTmpl) "type" = some (JVal.str "module") :=
  (module_type_normalization frameDest scenTmpl (by decide)).2 "module" rfl
    (by decide) (by decide)

/-- C10 (confirmed): the merge modifies only the six fields it owns; every
other top-level field, in particular name and version, is written back
with exactly its original value. -/
theorem merge_frame_effect (dest tmpl : Manifest) (_hwf : manifestWF dest = true) :
    (∀ k : String,
      k ∉ ["type", "dependencies", "devDependencies", "scripts", "description", "keywords"] →
      getF (mergeHelixPackageJson dest tmpl) k = getF dest k) ∧
    getF (mergeHelixPackageJson dest tmpl) "name" = getF dest "name" ∧
    getF (mergeHelixPackageJson dest tmpl) "version" = getF dest "version" :=
  ⟨fun k hk => getF_merge_frame dest tmpl k hk,
   getF_merge_frame dest tmpl "name" (by decide),
   getF_merge_frame dest tmpl "version" (by decide)⟩

/-- Witness for C10: the name field of a concrete destination survives the
merge with its original value. -/
theorem merge_frame_effect_witness :
    getF (mergeHelixPackageJson frameDest scenTmpl) "name" = some (JVal.str "demo") :=
  ((merge_frame_effect frameDest scenTmpl (by decide)).2.1).trans rfl

/-- C2 (code_bug): the package.json exclusion in copyRecursive executes a
return statement instead of continuing the loop, so every sibling listed
after a package.json is abandoned: on a directory listing package.json
before the plain file app.ts the walk emits no instruction at all, while
the same file receives its copy instruction when no package.json precedes
it, and app.ts is not the excluded name. -/
theorem walker_return_abandons_siblings :
    copyRecursive noDestEx [FSEntry.file "package.json", FSEntry.file "app.ts"] [] = [] ∧
    copyRecursive noDestEx [FSEntry.file "app.ts"] [] = [Instr.copyFile ["app.ts"]] ∧
    ("app.ts" : String) ≠ "package.json" := by
  refine ⟨?_, ?_, by decide⟩
  · simp [copyRecursive]
  · simp +decide [copyRecursive, sEndsWith]

/-- C8 (corrected), counterexample: in the create body of src/bin/helix.js
the template overlay step precedes the npm-install step, so the overlay
does not run after dependency installation there. -/
theorem overlay_before_install_in_bin :
    List.indexOf CreateStep.copyTemplateOverlay (createStepsHelixBin "basicapp") <
      List.indexOf CreateStep.npmInstall (createStepsHelixBin "basicapp") := by
  decide

/-- C8 (amended): the overlay-after-install ordering holds in the variant
CLI src/unnamed/part_011, for every template type; in src/bin/helix.js the
overlay runs before npm install, for every template type. -/
theorem overlay_install_ordering :
    ∀ templateType : String,
      List.indexOf CreateStep.npmInstall (createStepsPart011 templateType) <
        List.indexOf CreateStep.copyTemplateOverlay (createStepsPart011 templateType) ∧
      List.indexOf CreateStep.copyTemplateOverlay (createStepsHelixBin templateType) <
        List.indexOf CreateStep.npmInstall (createStepsHelixBin templateType) := by
  intro templateType
  by_cases h : templateType = "basicapp" <;>
    simp only [createStepsPart011, createStepsHelixBin, h, if_true, if_false] <;>
    decide

/-- C7 (confirmed): whenever the dist directory, the compiled backend
entrypoint, or the compiled frontend index is missing, the start command
trace exits with code 1, never invokes the production start script,
performs no filesystem mutation, and contains an error message naming a
missing artifact together with the hint naming its rebuild command. -/
theorem build_guard (ex : String → Bool) (startOk : Bool)
    (h : ex distDir = false ∨ ex apiServerPath = false ∨ ex webIndexPath = false) :
    Eff.exitP 1 ∈ startCommand ex startOk ∧
    Eff.execCmd "npm run start:api" ∉ startCommand ex startOk ∧
    (∀ p, Eff.writeFS p ∉ startCommand ex startOk ∧ Eff.mkDir p ∉ startCommand ex startOk) ∧
    ((ex distDir = false ∧
        Eff.logErr "❌ Build not found! Please run \"npm run build\" first." ∈
          startCommand ex startOk ∧
        Eff.logOut "💡 Run: npm run build" ∈ startCommand ex startOk) ∨
     (ex apiServerPath = false ∧
        Eff.logErr "❌ API build not found! Backend server missing." ∈ startCommand ex startOk ∧
        Eff.logOut "💡 Run: npm run build:api" ∈ startCommand ex startOk) ∨
     (ex webIndexPath = false ∧
        Eff.logErr "❌ Web build not found! Frontend build missing." ∈ startCommand ex startOk ∧
        Eff.logOut "💡 Run: npm run build:web" ∈ startCommand ex startOk)) := by
  cases hd : ex distDir with
  | false =>
    simp only [startCommand, hd, Bool.not_false, if_true]
    refine ⟨by simp, by simp, fun p => ⟨by simp, by simp⟩, Or.inl ⟨trivial, by simp, by simp⟩⟩
  | true =>
    cases ha : ex apiServerPath with
    | false =>
      simp only [startCommand, hd, ha, Bool.not_true, Bool.not_false, if_false, if_true]
      refine ⟨by simp, by simp, fun p => ⟨by simp, by simp⟩, Or.inr (Or.inl ⟨trivial, by simp, by simp⟩)⟩
    | true =>
      cases hw : ex webIndexPath with
      | false =>
        simp only [startCommand, hd, ha, hw, Bool.not_true, Bool.not_false, if_false, if_true]
        refine ⟨by simp, by simp, fun p => ⟨by simp, by simp⟩,
          Or.inr (Or.inr ⟨trivial, by simp, by simp⟩)⟩
      | true =>
        rw [hd, ha, hw] at h
        rcases h with h | h | h <;> exact absurd h (by decide)

/-- Witness for C7 on a filesystem with no artifacts: the trace exits 1
and never reaches the start script. -/
theorem build_guard_witness :
    Eff.exitP 1 ∈ startCommand noFS true ∧
    Eff.execCmd "npm run start:api" ∉ startCommand noFS true :=
  ⟨(build_guard noFS true (Or.inl rfl)).1, (build_guard noFS true (Or.inl rfl)).2.1⟩

/-- C9 (confirmed): a missing (or empty) project name, an invalid template
identifier, or an already-existing destination directory (for a
non-current-directory destination) makes the create prelude report an
error line, exit with code 1, and perform no filesystem mutation, no
directory change, and no child-process invocation. -/
theorem create_validation_errors (projectName : Option String) (templateType : String)
    (templateDirExists destExists pkgExists : Bool)
    (h : projectName = none ∨ projectName = some "" ∨
         validTemplates.contains templateType = false ∨
         (∃ n, projectName = some n ∧ n ≠ "" ∧ n ≠ "." ∧ destExists = true)) :
    (∃ m, Eff.logErr m ∈
        createPrelude projectName templateType templateDirExists destExists pkgExists) ∧
    Eff.exitP 1 ∈ createPrelude projectName templateType templateDirExists destExists pkgExists ∧
    (∀ p, Eff.mkDir p ∉
        createPrelude projectName templateType templateDirExists destExists pkgExists ∧
      Eff.chDir p ∉ createPrelude projectName templateType templateDirExists destExists pkgExists ∧
      Eff.writeFS p ∉
        createPrelude projectName templateType templateDirExists destExists pkgExists ∧
      Eff.execCmd p ∉
        createPrelude projectName templateType templateDirExists destExists pkgExists) := by
  cases projectName with
  | none =>
    have htr : createPrelude none templateType templateDirExists destExists pkgExists =
        [Eff.logErr "❌ Please provide a project name or \".\" for current directory: helix create <project-name>",
         Eff.exitP 1] := rfl
    rw [htr]
    exact ⟨⟨"❌ Please provide a project name or \".\" for current directory: helix create <project-name>",
      by simp⟩, by simp, fun p => ⟨by simp, by simp, by simp, by simp⟩⟩
  | some pn =>
    by_cases hpn : pn = ""
    · have htr : createPrelude (some pn) templateType templateDirExists destExists pkgExists =
          [Eff.logErr "❌ Please provide a project name or \".\" for current directory: helix create <project-name>",
           Eff.exitP 1] := by
        simp [createPrelude, hpn]
      rw [htr]
      exact ⟨⟨"❌ Please provide a project name or \".\" for current directory: helix create <project-name>",
        by simp⟩, by simp, fun p => ⟨by simp, by simp, by simp, by simp⟩⟩
    · by_cases hvt : validTemplates.contains templateType = true
      · have hmem : templateType ∈ validTemplates := by simpa using hvt
        have hde : pn ≠ "." ∧ destExists = true := by
          rcases h with h | h | h | ⟨n, hn, _, hnd, hd⟩
          · exact absurd h (by simp)
          · exact absurd (Option.some.inj h) hpn
          · rw [hvt] at h; exact absurd h (by decide)
          · exact ⟨by rw [Option.some.inj hn]; exact hnd, hd⟩
        cases htde : templateDirExists with
        | false =>
          have htr : createPrelude (some pn) templateType false destExists pkgExists =
              [Eff.logErr ("❌ Template \"" ++ templateType ++
                 "\" is not yet available. Currently available: basicapp"), Eff.exitP 1] := by
            simp [createPrelude, hpn, hmem]
          rw [htr]
          exact ⟨⟨"❌ Template \"" ++ templateType ++ "\" is not yet available. Currently available: basicapp",
            by simp⟩, by simp, fun p => ⟨by simp, by simp, by simp, by simp⟩⟩
        | true =>
          have htr : createPrelude (some pn) templateType true destExists pkgExists =
              [Eff.logOut ("🚀 Creating Helix " ++ templateType ++ " project: " ++ pn),
               Eff.logErr ("❌ Directory " ++ pn ++ " already exists"), Eff.exitP 1] := by
            simp [createPrelude, hpn, hmem, hde.1, hde.2]
          rw [htr]
          exact ⟨⟨"❌ Directory " ++ pn ++ " already exists",
            by simp⟩, by simp, fun p => ⟨by simp, by simp, by simp, by simp⟩⟩
      · have hnmem : templateType ∉ validTemplates := by simpa using hvt
        have htr : createPrelude (some pn) templateType templateDirExists destExists pkgExists =
            [Eff.logErr ("❌ Invalid template \"" ++ templateType ++
               "\". Available templates: " ++ String.intercalate ", " validTemplates),
             Eff.exitP 1] := by
          simp [createPrelude, hpn, hnmem]
        rw [htr]
        exact ⟨⟨"❌ Invalid template \"" ++ templateType ++ "\". Available templates: " ++
            String.intercalate ", " validTemplates,
          by simp⟩, by simp, fun p => ⟨by simp, by simp, by simp, by simp⟩⟩

/-- Witness for C9: creating over an existing destination directory exits
1 and never reaches mkdir. -/
theorem create_validation_errors_witness :
    Eff.exitP 1 ∈ createPrelude (some "proj") "basicapp" true true false ∧
    (∀ p, Eff.mkDir p ∉ createPrelude (some "proj") "basicapp" true true false) :=
  ⟨(create_validation_errors (some "proj") "basicapp" true true false
      (Or.inr (Or.inr (Or.inr ⟨"proj", rfl, by decide, by decide, rfl⟩)))).2.1,
   fun p => ((create_validation_errors (some "proj") "basicapp" true true false
      (Or.inr (Or.inr (Or.inr ⟨"proj", rfl, by decide, by decide, rfl⟩)))).2.2 p).1⟩

/-- A replacement string without a dollar character expands to itself:
replacement-pattern interpretation is the only divergence from literal
substitution. -/
theorem expandSub_no_dollar (matched pre post : List Char) (rep : List Char)
    (h : dollarChar ∉ rep) :
    expandSub matched pre post rep = rep := by
  induction rep with
  | nil => rfl
  | cons c tail ih =>
    cases tail with
    | nil => rfl
    | cons d rest2 =>
      have hc : ¬c = dollarChar := by
        intro e
        exact h (by rw [e]; exact List.mem_cons_self _ _)
      have ht : dollarChar ∉ (d :: rest2) := fun hm => h (List.mem_cons_of_mem c hm)
      calc expandSub matched pre post (c :: d :: rest2)
          = c :: expandSub matched pre post (d :: rest2) := by
            simp only [expandSub, hc, if_false]
        _ = c :: d :: rest2 := by rw [ih ht]

/-- With a dollar-free replacement, the global-replace scan coincides with
the literal replacement of the specification, for every fuel and prefix. -/
theorem jsRepGo_eq_specLiteralGo (tok rep : List Char) (h : dollarChar ∉ rep) :
    ∀ (f : Nat) (pre s : List Char), jsRepGo tok rep f pre s = specLiteralGo tok rep f s := by
  intro f
  induction f with
  | zero => intro pre s; rfl
  | succ f ih =>
    intro pre s
    cases s with
    | nil => rfl
    | cons c rest =>
      by_cases hp : tok.isPrefixOf (c :: rest) = true
      · simp only [jsRepGo, specLiteralGo, hp, if_true]
        rw [expandSub_no_dollar _ _ _ rep h, ih]
      · simp [jsRepGo, specLiteralGo, hp, ih]

/-- The source replace equals literal replacement whenever the replacement
value contains no dollar character. -/
theorem jsReplaceAll_eq_specLiteralReplace (tok rep s : List Char) (h : dollarChar ∉ rep) :
    jsReplaceAll tok rep s = specLiteralReplace tok rep s := by
  unfold jsReplaceAll specLiteralReplace
  split
  · rfl
  · exact jsRepGo_eq_specLiteralGo tok rep h s.length [] s

/-- Token-map fold version of the previous lemma. -/
theorem foldl_jsReplace_eq_spec (rs : List (String × String))
    (h : ∀ r ∈ rs, dollarChar ∉ r.2.data) : ∀ content : List Char,
    rs.foldl (fun acc tr => jsReplaceAll tr.1.data tr.2.data acc) content =
      rs.foldl (fun acc tr => specLiteralReplace tr.1.data tr.2.data acc) content := by
  induction rs with
  | nil => intro c; rfl
  | cons r rest ih =>
    intro c
    simp only [List.foldl_cons]
    rw [jsReplaceAll_eq_specLiteralReplace _ _ _ (h r (List.mem_cons_self _ _))]
    exact ih (fun x hx => h x (List.mem_cons_of_mem r hx)) _

/-- C3 (corrected), counterexample: with the replacement value a$&b (a
project name containing a replacement pattern), substituting in a text
with exactly one token occurrence yields a text that still contains the
token once and contains the replacement value zero times: the dollar
sequence is interpreted by the replacement engine, so substitution is not
literal for every replacement value. -/
theorem dollar_replacement_not_literal :
    countOccs "\x7b\x7bPROJECT_NAME\x7d\x7d".data "x\x7b\x7bPROJECT_NAME\x7d\x7dy".data = 1 ∧
    String.mk (processTemplateFile "a$&b" "/w" "x\x7b\x7bPROJECT_NAME\x7d\x7dy".data) =
      "xa\x7b\x7bPROJECT_NAME\x7d\x7dby" ∧
    countOccs "\x7b\x7bPROJECT_NAME\x7d\x7d".data
      (processTemplateFile "a$&b" "/w" "x\x7b\x7bPROJECT_NAME\x7d\x7dy".data) = 1 ∧
    countOccs "a$&b".data
      (processTemplateFile "a$&b" "/w" "x\x7b\x7bPROJECT_NAME\x7d\x7dy".data) = 0 :=
  ⟨by decide, rfl, by decide, by decide⟩

/-- C3 (amended): substitution in processTemplateFile is literal, global,
left-to-right non-overlapping string replacement whenever the resolved
project name contains no dollar character (the theme and mode values are
dollar-free constants): the output is exactly the fold of the
specification's literal replacement over the token map. A value containing
a dollar is subject to replacement-pattern interpretation instead. -/
theorem placeholder_literal_replacement (projectName cwd : String) (content : List Char)
    (h : dollarChar ∉ (actualProjectName projectName cwd).data) :
    processTemplateFile projectName cwd content =
      (replacements (actualProjectName projectName cwd)).foldl
        (fun acc tr => specLiteralReplace tr.1.data tr.2.data acc) content := by
  unfold processTemplateFile
  apply foldl_jsReplace_eq_spec
  intro r hr
  unfold replacements at hr
  simp only [List.mem_cons, List.not_mem_nil, or_false] at hr
  rcases hr with rfl | rfl | rfl | rfl
  · exact h
  · exact h
  · decide
  · decide

/-- Witness for C3: a dollar-free project name substitutes literally. -/
theorem placeholder_literal_replacement_witness :
    processTemplateFile "myapp" "/w" "x\x7b\x7bPROJECT_NAME\x7d\x7dy".data =
      (replacements (actualProjectName "myapp" "/w")).foldl
        (fun acc tr => specLiteralReplace tr.1.data tr.2.data acc)
        "x\x7b\x7bPROJECT_NAME\x7d\x7dy".data :=
  placeholder_literal_replacement "myapp" "/w" _ (by decide)
